import Mathlib

set_option autoImplicit false

/-!
Verification of the G-code interpreter `klippy/gcode.py` (class `GCodeParser`).

The embedding is shallow: the Python string manipulations are modelled over
`List Char` / `String`, real-valued positions over `ℚ`, and the stateful
handlers as explicit state-passing functions.  Numeric parameter values are
modelled pre-parsed: a parameter map sends a key to `none` (absent),
`some none` (present but not parsable as a number, i.e. `float(...)` /
`int(...)` raises `ValueError`) or `some (some v)` (present with value `v`).
External collaborators (toolhead, heaters, reactor) are modelled by input
data (the toolhead's authoritative position) and by explicit event traces.
-/

namespace Klippy

/-! ### Python string primitives

`str.strip()`, `str.upper()`, `str.split(sep)`, `str.split()` and
`sep.join(...)` as used by `gcode.py`.  `Char.toUpper` coincides with
Python `upper` on the ASCII data these commands carry. -/

/-- The characters Python `str.strip()` removes. -/
def isPySpace (c : Char) : Bool :=
  c == ' ' || c == '\t' || c == '\n' || c == '\r' || c == '\x0b' || c == '\x0c'

/-- Python `str.strip()` on a character list. -/
def pyStripList (l : List Char) : List Char :=
  ((l.dropWhile isPySpace).reverse.dropWhile isPySpace).reverse

/-- Python `str.strip()`. -/
def pyStrip (s : String) : String := String.mk (pyStripList s.data)

/-- Python `str.upper()` (ASCII). -/
def pyUpper (s : String) : String := String.mk (s.data.map Char.toUpper)

/-- Auxiliary scanner for `str.split(sep)`: `acc` is the reversed current
segment. -/
def splitOnCharAux (sep : Char) : List Char → List Char → List (List Char)
  | [], acc => [acc.reverse]
  | c :: cs, acc =>
    if c == sep then acc.reverse :: splitOnCharAux sep cs []
    else splitOnCharAux sep cs (c :: acc)

/-- Python `str.split(sep)` for a one-character separator (always returns at
least one segment). -/
def pySplitChar (sep : Char) (s : String) : List String :=
  (splitOnCharAux sep s.data []).map String.mk

/-- Python `sep.join(parts)`. -/
def pyJoin (sep : String) : List String → String
  | [] => ""
  | [p] => p
  | p :: q :: ps => p ++ sep ++ pyJoin sep (q :: ps)

/-- Auxiliary scanner for whitespace `str.split()`: `acc` is the reversed
current word. -/
def splitWsAux : List Char → List Char → List (List Char)
  | [], acc => if acc.isEmpty then [] else [acc.reverse]
  | c :: cs, acc =>
    if isPySpace c then
      if acc.isEmpty then splitWsAux cs [] else acc.reverse :: splitWsAux cs []
    else splitWsAux cs (c :: acc)

/-- Python `str.split()` (split on whitespace runs, no empty words). -/
def pySplitWs (s : String) : List String :=
  (splitWsAux s.data []).map String.mk

/-- Python `str.split(c, 1)`: at most one split, at the first occurrence. -/
def pySplit1 (c : Char) (s : String) : List String :=
  let pre := s.data.takeWhile (· != c)
  match s.data.dropWhile (· != c) with
  | [] => [s]
  | _ :: tl => [String.mk pre, String.mk tl]

/-- A single-quote character, kept out of string literals. -/
def sq : String := String.singleton (Char.ofNat 39)

/-! ### Coordinate/session state (`GCodeParser.__init__`)

`axis2pos = {X:0, Y:1, Z:2, E:3}`; all four position arrays are length 4,
modelled as `Fin 4 → ℚ`. -/

/-- The mutable coordinate/session state of `GCodeParser` touched by the
motion-related handlers. -/
structure GState where
  absolutecoord : Bool
  absoluteextrude : Bool
  base_position : Fin 4 → ℚ
  last_position : Fin 4 → ℚ
  homing_add : Fin 4 → ℚ
  speed : ℚ

/-- Pointwise update of one axis slot of a position array. -/
def setAxis (f : Fin 4 → ℚ) (p : Fin 4) (v : ℚ) : Fin 4 → ℚ :=
  fun i => if i = p then v else f i

/-- A parameter map restricted to the four axis letters, values pre-parsed:
`none` = axis letter absent, `some none` = present but `float(...)` raises,
`some (some v)` = present with value `v`. -/
def AxisParams : Type := Fin 4 → Option (Option ℚ)

/-- Iteration order of `self.axis2pos.items()`: X, Y, Z, E. -/
def axesOrder : List (Fin 4) := [0, 1, 2, 3]

/-- Result of a handler that can raise the gcode `error` exception: the state
after the handler together with the raised message (if any).  The message
text follows the source format with the unparsable token text elided (values
are modelled pre-parsed). -/
structure HResult where
  state : GState
  err : Option String

/-- Message of the `error` raised by `cmd_G1` (`"Unable to parse move
..."`, citing the original line). -/
def errUnableToParseMove (orig : String) : String :=
  "Unable to parse move " ++ sq ++ orig ++ sq

/-- Message of the `error` raised by `get_float` on an unparsable value
(`"Error on ...: unable to parse ..."`, citing the original line). -/
def errGetFloat (orig : String) : String :=
  "Error on " ++ sq ++ orig ++ sq ++ ": unable to parse value"

/-- The axis-update loop of `cmd_G1` (lines 309-318): for each axis letter
present, in `axis2pos` order, add the value to `last_position` (relative
mode, with the extrusion axis gated by `absoluteextrude`) or set it to
`value + base_position` (absolute mode).  `none` = a `float(...)` call
raised `ValueError`. -/
def applyAxes (params : AxisParams) : List (Fin 4) → GState → Option GState
  | [], s => some s
  | p :: ps, s =>
    match params p with
    | none => applyAxes params ps s
    | some none => none
    | some (some v) =>
      let tgt :=
        if !s.absolutecoord || (decide (2 < p.val) && !s.absoluteextrude) then
          s.last_position p + v
        else
          v + s.base_position p
      applyAxes params ps { s with last_position := setAxis s.last_position p tgt }

/-- `cmd_G1` (move).  `tool` is `self.toolhead.get_position()`, read when the
handler resyncs after a fault; `fparam` is the pre-parsed `F` parameter;
`moveOk` tells whether `self.toolhead.move(...)` raises
`homing.EndstopError`.  On a `ValueError` from the axis loop or the
feed-rate check, `last_position` is replaced by the toolhead position and
the gcode `error` is raised; `self.speed` is only assigned after the
`speed <= 0` check passes. -/
def cmd_G1 (tool : Fin 4 → ℚ) (orig : String) (s : GState)
    (params : AxisParams) (fparam : Option (Option ℚ)) (moveOk : Bool) : HResult :=
  match applyAxes params axesOrder s with
  | none => ⟨{ s with last_position := tool }, some (errUnableToParseMove orig)⟩
  | some s1 =>
    match fparam with
    | none =>
      if moveOk then ⟨s1, none⟩ else ⟨{ s1 with last_position := tool }, none⟩
    | some none => ⟨{ s1 with last_position := tool }, some (errUnableToParseMove orig)⟩
    | some (some v) =>
      if v / 60 ≤ 0 then
        ⟨{ s1 with last_position := tool }, some (errUnableToParseMove orig)⟩
      else
        let s2 := { s1 with speed := v / 60 }
        if moveOk then ⟨s2, none⟩ else ⟨{ s2 with last_position := tool }, none⟩

/-- The dict comprehension shared by `cmd_G92` and `cmd_M206`:
`{p: get_float(a, params) for a, p in axis2pos.items() if a in params}`.
It is fully evaluated before any state assignment; the first unparsable
value raises (`none`). -/
def collectOffsets (params : AxisParams) : List (Fin 4) → Option (List (Fin 4 × ℚ))
  | [] => some []
  | p :: ps =>
    match params p with
    | none => collectOffsets params ps
    | some none => none
    | some (some v) => (collectOffsets params ps).map (fun l => (p, v) :: l)

/-- One iteration of the `cmd_G92` assignment loop:
`base_position[p] = last_position[p] - offset`. -/
def g92Step (st : GState) (pv : Fin 4 × ℚ) : GState :=
  { st with base_position := setAxis st.base_position pv.1 (st.last_position pv.1 - pv.2) }

/-- `cmd_G92` (set position). -/
def cmd_G92 (orig : String) (s : GState) (params : AxisParams) : HResult :=
  match collectOffsets params axesOrder with
  | none => ⟨s, some (errGetFloat orig)⟩
  | some offsets =>
    let s1 := offsets.foldl g92Step s
    if offsets.isEmpty then ⟨{ s1 with base_position := s1.last_position }, none⟩
    else ⟨s1, none⟩

/-- One iteration of the `cmd_M206` assignment loop:
`base_position[p] += homing_add[p] - offset; homing_add[p] = offset`. -/
def m206Step (st : GState) (pv : Fin 4 × ℚ) : GState :=
  { st with
    base_position := setAxis st.base_position pv.1
      (st.base_position pv.1 + (st.homing_add pv.1 - pv.2)),
    homing_add := setAxis st.homing_add pv.1 pv.2 }

/-- `cmd_M206` (set home offset). -/
def cmd_M206 (orig : String) (s : GState) (params : AxisParams) : HResult :=
  match collectOffsets params axesOrder with
  | none => ⟨s, some (errGetFloat orig)⟩
  | some offsets => ⟨offsets.foldl m206Step s, none⟩

/-! ### Lemmas about the `cmd_G1` axis loop -/

/-- The axis loop only writes `last_position`; every other field of the
state is untouched. -/
lemma applyAxes_frame (params : AxisParams) (l : List (Fin 4)) :
    ∀ (s s1 : GState), applyAxes params l s = some s1 →
      s1.base_position = s.base_position ∧ s1.homing_add = s.homing_add ∧
      s1.speed = s.speed ∧ s1.absolutecoord = s.absolutecoord ∧
      s1.absoluteextrude = s.absoluteextrude := by
  induction l with
  | nil =>
    intro s s1 h
    simp only [applyAxes, Option.some.injEq] at h
    subst h
    exact ⟨rfl, rfl, rfl, rfl, rfl⟩
  | cons p ps ih =>
    intro s s1 h
    cases hp : params p with
    | none =>
      rw [applyAxes, hp] at h
      exact ih s s1 h
    | some w =>
      cases w with
      | none => rw [applyAxes, hp] at h; cases h
      | some v =>
        rw [applyAxes, hp] at h
        have := ih _ s1 h
        simpa using this

/-- Full behaviour of the axis loop when every value present parses: it
succeeds, and each axis slot of `last_position` is set according to the
coordinate mode (computed from the state at entry), axes not listed or not
present being untouched. -/
lemma applyAxes_spec (params : AxisParams) (l : List (Fin 4)) :
    ∀ (s : GState), l.Nodup → (∀ p ∈ l, params p ≠ some none) →
    ∃ s1, applyAxes params l s = some s1 ∧
      (∀ p, p ∉ l → s1.last_position p = s.last_position p) ∧
      (∀ p ∈ l, params p = none → s1.last_position p = s.last_position p) ∧
      (∀ p ∈ l, ∀ v, params p = some (some v) →
        s1.last_position p =
          if !s.absolutecoord || (decide (2 < p.val) && !s.absoluteextrude) then
            s.last_position p + v
          else v + s.base_position p) := by
  induction l with
  | nil =>
    intro s _ _
    exact ⟨s, rfl, fun p _ => rfl, fun p hp => absurd hp (List.not_mem_nil p),
      fun p hp => absurd hp (List.not_mem_nil p)⟩
  | cons p ps ih =>
    intro s hnd hok
    have hpps : p ∉ ps := (List.nodup_cons.mp hnd).1
    have hndps : ps.Nodup := (List.nodup_cons.mp hnd).2
    have hokps : ∀ q ∈ ps, params q ≠ some none :=
      fun q hq => hok q (List.mem_cons_of_mem p hq)
    cases hp : params p with
    | none =>
      obtain ⟨s1, heq, hout, hnone, hval⟩ := ih s hndps hokps
      refine ⟨s1, by rw [applyAxes, hp]; exact heq, ?_, ?_, ?_⟩
      · intro q hq
        exact hout q (fun h => hq (List.mem_cons_of_mem p h))
      · intro q hq hqn
        rcases List.mem_cons.mp hq with rfl | hq2
        · exact hout q hpps
        · exact hnone q hq2 hqn
      · intro q hq v hqv
        rcases List.mem_cons.mp hq with rfl | hq2
        · rw [hp] at hqv; cases hqv
        · exact hval q hq2 v hqv
    | some w =>
      cases w with
      | none => exact absurd hp (hok p (List.mem_cons_self p ps))
      | some v =>
        set tgt :=
          if !s.absolutecoord || (decide (2 < p.val) && !s.absoluteextrude) then
            s.last_position p + v
          else v + s.base_position p with htgt
        set s' : GState := { s with last_position := setAxis s.last_position p tgt }
          with hs'
        obtain ⟨s1, heq, hout, hnone, hval⟩ := ih s' hndps hokps
        have hbase : s'.base_position = s.base_position := rfl
        have hlastne : ∀ q, q ≠ p → s'.last_position q = s.last_position q := by
          intro q hq
          simp [hs', setAxis, hq]
        refine ⟨s1, by rw [applyAxes, hp]; exact heq, ?_, ?_, ?_⟩
        · intro q hq
          have hqp : q ≠ p := fun h => hq (h ▸ List.mem_cons_self p ps)
          have hqps : q ∉ ps := fun h => hq (List.mem_cons_of_mem p h)
          rw [hout q hqps, hlastne q hqp]
        · intro q hq hqn
          rcases List.mem_cons.mp hq with rfl | hq2
          · rw [hp] at hqn; cases hqn
          · have hqp : q ≠ p := fun h => hpps (h ▸ hq2)
            rw [hnone q hq2 hqn, hlastne q hqp]
        · intro q hq w hqv
          rcases List.mem_cons.mp hq with rfl | hq2
          · have hvw : v = w := by rw [hp] at hqv; simpa using hqv
            subst hvw
            rw [hout q hpps]
            have hsq : s'.last_position q = tgt := by
              show setAxis s.last_position q tgt q = tgt
              simp [setAxis]
            rw [hsq]
          · have hqp : q ≠ p := fun h => hpps (h ▸ hq2)
            rw [hval q hq2 w hqv, hlastne q hqp, hbase]

/-- When the axis loop succeeds and the feed-rate parameter is absent or
positive, `cmd_G1` raises nothing and keeps the loop's `last_position`. -/
lemma cmd_G1_ok (tool : Fin 4 → ℚ) (orig : String) (s : GState)
    (params : AxisParams) (fparam : Option (Option ℚ)) (s1 : GState)
    (heq : applyAxes params axesOrder s = some s1)
    (hf : fparam = none ∨ ∃ v, fparam = some (some v) ∧ 0 < v / 60) :
    (cmd_G1 tool orig s params fparam true).err = none ∧
    (cmd_G1 tool orig s params fparam true).state.last_position = s1.last_position := by
  rcases hf with rfl | ⟨v, rfl, hv⟩
  · simp [cmd_G1, heq]
  · simp [cmd_G1, heq, not_le.mpr hv]

/-- C2: for a move command (`cmd_G1`) in which every axis value present
parses, the feed rate (when present) is admissible and the issued move does
not fault, each axis present is set to `base_position + value` in absolute
mode (the extrusion axis also requiring `absoluteextrude`) and to the prior
`last_position + value` in relative mode (the extrusion axis gated by its
own relative flag); axes not present in the parameters are unchanged. -/
theorem C2_move_axis_targets (tool : Fin 4 → ℚ) (orig : String) (s : GState)
    (params : AxisParams) (fparam : Option (Option ℚ))
    (hax : ∀ p, params p ≠ some none)
    (hf : fparam = none ∨ ∃ v, fparam = some (some v) ∧ 0 < v / 60) :
    (cmd_G1 tool orig s params fparam true).err = none ∧
    (∀ p : Fin 4, ∀ v : ℚ, params p = some (some v) →
      ((s.absolutecoord = true ∧ (p.val ≤ 2 ∨ s.absoluteextrude = true) →
        (cmd_G1 tool orig s params fparam true).state.last_position p =
          s.base_position p + v) ∧
       (s.absolutecoord = false ∨ (2 < p.val ∧ s.absoluteextrude = false) →
        (cmd_G1 tool orig s params fparam true).state.last_position p =
          s.last_position p + v))) ∧
    (∀ p : Fin 4, params p = none →
      (cmd_G1 tool orig s params fparam true).state.last_position p =
        s.last_position p) := by
  have hmem : ∀ p : Fin 4, p ∈ axesOrder := by decide
  obtain ⟨s1, heq, _, hnone, hval⟩ :=
    applyAxes_spec params axesOrder s (by decide) (fun p _ => hax p)
  obtain ⟨herr, hlast⟩ := cmd_G1_ok tool orig s params fparam s1 heq hf
  refine ⟨herr, ?_, ?_⟩
  · intro p v hpv
    have hvf := hval p (hmem p) v hpv
    constructor
    · rintro ⟨hA, hB⟩
      have hcond :
          (!s.absolutecoord || (decide (2 < p.val) && !s.absoluteextrude)) = false := by
        rcases hB with hB | hB
        · simp [hA, not_lt.mpr hB]
        · simp [hA, hB]
      rw [hlast, hvf, hcond]
      simp [add_comm]
    · intro hB
      have hcond :
          (!s.absolutecoord || (decide (2 < p.val) && !s.absoluteextrude)) = true := by
        rcases hB with hB | ⟨hB1, hB2⟩
        · simp [hB]
        · simp [hB1, hB2]
      rw [hlast, hvf, hcond]
      simp
  · intro p hp
    rw [hlast, hnone p (hmem p) hp]

/-- Witness for C2 at a concrete input: absolute mode, `X3` with
`base_position` 10 everywhere gives `last_position[X] = 13`. -/
theorem C2_move_axis_targets_witness :
    (cmd_G1 (fun _ => 0) "G1 X3" ⟨true, true, fun _ => 10, fun _ => 1, fun _ => 0, 5⟩
      (fun i => if i = 0 then some (some 3) else none) none true).state.last_position 0
      = 13 := by
  have h := C2_move_axis_targets (fun _ => 0) "G1 X3"
    ⟨true, true, fun _ => 10, fun _ => 1, fun _ => 0, 5⟩
    (fun i => if i = 0 then some (some 3) else none) none
    (by decide) (Or.inl rfl)
  have h2 := (h.2.1 0 3 (by norm_num)).1 ⟨rfl, Or.inl (by decide)⟩
  rw [h2]
  norm_num

/-- C3: for a move command whose feed-rate value `v` satisfies `v/60 ≤ 0`,
`cmd_G1` raises the gcode error citing the original line, leaves
`self.speed` unmodified and resyncs `last_position` from the toolhead
position before raising; when `v/60 > 0` (and the axis values parse so the
feed-rate code is reached), `self.speed` is updated to `v/60`. -/
theorem C3_feedrate (tool : Fin 4 → ℚ) (orig : String) (s : GState)
    (params : AxisParams) (v : ℚ) (moveOk : Bool) :
    (v / 60 ≤ 0 →
      (cmd_G1 tool orig s params (some (some v)) moveOk).err =
        some (errUnableToParseMove orig) ∧
      (cmd_G1 tool orig s params (some (some v)) moveOk).state.speed = s.speed ∧
      (cmd_G1 tool orig s params (some (some v)) moveOk).state.last_position = tool) ∧
    (0 < v / 60 → (∀ p, params p ≠ some none) →
      (cmd_G1 tool orig s params (some (some v)) moveOk).err = none ∧
      (cmd_G1 tool orig s params (some (some v)) moveOk).state.speed = v / 60) := by
  cases happ : applyAxes params axesOrder s with
  | none =>
    constructor
    · intro _
      refine ⟨?_, ?_, ?_⟩ <;> simp [cmd_G1, happ]
    · intro _ hax
      obtain ⟨s1, heq, -, -, -⟩ :=
        applyAxes_spec params axesOrder s (by decide) (fun p _ => hax p)
      rw [happ] at heq
      cases heq
  | some s1 =>
    have hfr := (applyAxes_frame params axesOrder s s1 happ).2.2.1
    constructor
    · intro hle
      refine ⟨?_, ?_, ?_⟩ <;> simp [cmd_G1, happ, hle, hfr]
    · intro hpos _
      cases moveOk <;> simp [cmd_G1, happ, not_le.mpr hpos]

/-- Witness for C3 at a concrete input: `F-60` is rejected, the speed stays
5 and `last_position` is resynced to the toolhead position 7. -/
theorem C3_feedrate_witness :
    (cmd_G1 (fun _ => 7) "G1 F-60" ⟨true, true, fun _ => 10, fun _ => 1, fun _ => 0, 5⟩
      (fun _ => none) (some (some (-60))) true).err =
        some (errUnableToParseMove "G1 F-60") ∧
    (cmd_G1 (fun _ => 7) "G1 F-60" ⟨true, true, fun _ => 10, fun _ => 1, fun _ => 0, 5⟩
      (fun _ => none) (some (some (-60))) true).state.speed = 5 ∧
    (cmd_G1 (fun _ => 7) "G1 F-60" ⟨true, true, fun _ => 10, fun _ => 1, fun _ => 0, 5⟩
      (fun _ => none) (some (some (-60))) true).state.last_position = (fun _ => 7) := by
  have h := (C3_feedrate (fun _ => 7) "G1 F-60"
    ⟨true, true, fun _ => 10, fun _ => 1, fun _ => 0, 5⟩
    (fun _ => none) (-60) true).1 (by norm_num)
  exact ⟨h.1, h.2.1, h.2.2⟩

/-! ### Lemmas about `cmd_G92` / `cmd_M206` -/

lemma mem_axesOrder : ∀ p : Fin 4, p ∈ axesOrder := by decide

/-- Full behaviour of the `cmd_M206` offsets collection plus assignment
loop when every value present parses. -/
lemma m206_loop_spec (params : AxisParams) (l : List (Fin 4)) :
    ∀ (s : GState), l.Nodup → (∀ p ∈ l, params p ≠ some none) →
    ∃ ofs s1, collectOffsets params l = some ofs ∧ ofs.foldl m206Step s = s1 ∧
      (∀ p, p ∉ l → s1.base_position p = s.base_position p ∧
        s1.homing_add p = s.homing_add p) ∧
      (∀ p ∈ l, params p = none → s1.base_position p = s.base_position p ∧
        s1.homing_add p = s.homing_add p) ∧
      (∀ p ∈ l, ∀ v, params p = some (some v) →
        s1.base_position p = s.base_position p + (s.homing_add p - v) ∧
        s1.homing_add p = v) ∧
      s1.last_position = s.last_position ∧ s1.speed = s.speed := by
  induction l with
  | nil =>
    intro s _ _
    exact ⟨[], s, rfl, rfl, fun p _ => ⟨rfl, rfl⟩,
      fun p hp => absurd hp (List.not_mem_nil p),
      fun p hp => absurd hp (List.not_mem_nil p), rfl, rfl⟩
  | cons p ps ih =>
    intro s hnd hok
    have hpps : p ∉ ps := (List.nodup_cons.mp hnd).1
    have hndps : ps.Nodup := (List.nodup_cons.mp hnd).2
    have hokps : ∀ q ∈ ps, params q ≠ some none :=
      fun q hq => hok q (List.mem_cons_of_mem p hq)
    cases hp : params p with
    | none =>
      obtain ⟨ofs, s1, hco, hfold, hout, hnone, hval, hlast, hspd⟩ :=
        ih s hndps hokps
      refine ⟨ofs, s1, by rw [collectOffsets, hp]; exact hco, hfold, ?_, ?_, ?_,
        hlast, hspd⟩
      · intro q hq
        exact hout q (fun h => hq (List.mem_cons_of_mem p h))
      · intro q hq hqn
        rcases List.mem_cons.mp hq with rfl | hq2
        · exact hout q hpps
        · exact hnone q hq2 hqn
      · intro q hq w hqv
        rcases List.mem_cons.mp hq with rfl | hq2
        · rw [hp] at hqv; cases hqv
        · exact hval q hq2 w hqv
    | some w =>
      cases w with
      | none => exact absurd hp (hok p (List.mem_cons_self p ps))
      | some v =>
        obtain ⟨ofs, s1, hco, hfold, hout, hnone, hval, hlast, hspd⟩ :=
          ih (m206Step s (p, v)) hndps hokps
        have hbne : ∀ q, q ≠ p → (m206Step s (p, v)).base_position q =
            s.base_position q := by
          intro q hq; simp [m206Step, setAxis, hq]
        have hane : ∀ q, q ≠ p → (m206Step s (p, v)).homing_add q =
            s.homing_add q := by
          intro q hq; simp [m206Step, setAxis, hq]
        have hbp : (m206Step s (p, v)).base_position p =
            s.base_position p + (s.homing_add p - v) := by
          simp [m206Step, setAxis]
        have hap : (m206Step s (p, v)).homing_add p = v := by
          simp [m206Step, setAxis]
        refine ⟨(p, v) :: ofs, s1,
          by rw [collectOffsets, hp, hco]; rfl,
          by rw [List.foldl_cons]; exact hfold, ?_, ?_, ?_, hlast, hspd⟩
        · intro q hq
          have hqp : q ≠ p := fun h => hq (h ▸ List.mem_cons_self p ps)
          have hqps : q ∉ ps := fun h => hq (List.mem_cons_of_mem p h)
          obtain ⟨hb, ha⟩ := hout q hqps
          exact ⟨by rw [hb, hbne q hqp], by rw [ha, hane q hqp]⟩
        · intro q hq hqn
          rcases List.mem_cons.mp hq with rfl | hq2
          · rw [hp] at hqn; cases hqn
          · have hqp : q ≠ p := fun h => hpps (h ▸ hq2)
            obtain ⟨hb, ha⟩ := hnone q hq2 hqn
            exact ⟨by rw [hb, hbne q hqp], by rw [ha, hane q hqp]⟩
        · intro q hq w hqv
          rcases List.mem_cons.mp hq with rfl | hq2
          · have hvw : v = w := by rw [hp] at hqv; simpa using hqv
            subst hvw
            obtain ⟨hb, ha⟩ := hout q hpps
            exact ⟨by rw [hb, hbp], by rw [ha, hap]⟩
          · have hqp : q ≠ p := fun h => hpps (h ▸ hq2)
            obtain ⟨hb, ha⟩ := hval q hq2 w hqv
            exact ⟨by rw [hb, hbne q hqp, hane q hqp], by rw [ha]⟩

/-- C4: for a set-home-offset command (`cmd_M206`) whose given axis values
all parse, no error is raised, and for every axis the sum
`base_position[axis] + homing_add[axis]` is preserved; given axes are
updated by `base += homing_add - new_offset; homing_add = new_offset`,
ungiven axes are untouched. -/
theorem C4_home_offset_invariant (orig : String) (s : GState) (params : AxisParams)
    (hax : ∀ p, params p ≠ some none) :
    (cmd_M206 orig s params).err = none ∧
    (∀ p : Fin 4,
      (cmd_M206 orig s params).state.base_position p +
        (cmd_M206 orig s params).state.homing_add p =
        s.base_position p + s.homing_add p) ∧
    (∀ p : Fin 4, ∀ v : ℚ, params p = some (some v) →
      (cmd_M206 orig s params).state.base_position p =
        s.base_position p + (s.homing_add p - v) ∧
      (cmd_M206 orig s params).state.homing_add p = v) ∧
    (∀ p : Fin 4, params p = none →
      (cmd_M206 orig s params).state.base_position p = s.base_position p ∧
      (cmd_M206 orig s params).state.homing_add p = s.homing_add p) := by
  obtain ⟨ofs, s1, hco, hfold, -, hnone, hval, -, -⟩ :=
    m206_loop_spec params axesOrder s (by decide) (fun p _ => hax p)
  have hres : cmd_M206 orig s params = ⟨s1, none⟩ := by
    rw [cmd_M206, hco]
    exact congrArg (fun st => HResult.mk st none) hfold
  rw [hres]
  refine ⟨rfl, ?_, ?_, ?_⟩
  · intro p
    cases hp : params p with
    | none =>
      obtain ⟨hb, ha⟩ := hnone p (mem_axesOrder p) hp
      rw [hb, ha]
    | some w =>
      cases w with
      | none => exact absurd hp (hax p)
      | some v =>
        obtain ⟨hb, ha⟩ := hval p (mem_axesOrder p) v hp
        rw [hb, ha]
        ring
  · intro p v hp
    exact hval p (mem_axesOrder p) v hp
  · intro p hp
    exact hnone p (mem_axesOrder p) hp

/-- Witness for C4 at a concrete input: one given axis (Y, new offset 2)
and one ungiven axis (X) both preserve `base + homing_add`. -/
theorem C4_home_offset_invariant_witness :
    (cmd_M206 "M206 Y2" ⟨true, true, fun _ => 10, fun _ => 1, fun _ => 4, 5⟩
      (fun i => if i = 1 then some (some 2) else none)).state.base_position 1 +
    (cmd_M206 "M206 Y2" ⟨true, true, fun _ => 10, fun _ => 1, fun _ => 4, 5⟩
      (fun i => if i = 1 then some (some 2) else none)).state.homing_add 1 = 14 := by
  have h := C4_home_offset_invariant "M206 Y2"
    ⟨true, true, fun _ => 10, fun _ => 1, fun _ => 4, 5⟩
    (fun i => if i = 1 then some (some 2) else none) (by decide)
  rw [h.2.1 1]
  norm_num

/-- If any axis letter present has an unparsable value, the shared dict
comprehension of `cmd_G92` / `cmd_M206` raises while being built. -/
lemma collectOffsets_fail (params : AxisParams) (l : List (Fin 4)) (p : Fin 4)
    (hp : p ∈ l) (hbad : params p = some none) :
    collectOffsets params l = none := by
  induction l with
  | nil => cases hp
  | cons q qs ih =>
    rcases List.mem_cons.mp hp with rfl | hq
    · rw [collectOffsets, hbad]
    · cases hqq : params q with
      | none => rw [collectOffsets, hqq]; exact ih hq
      | some w =>
        cases w with
        | none => rw [collectOffsets, hqq]
        | some v => rw [collectOffsets, hqq, ih hq]; rfl

/-- C9: if any given axis value of a set-position (`cmd_G92`) or
set-home-offset (`cmd_M206`) command fails to parse, the gcode error is
raised and the state — in particular `base_position` and `homing_add` — is
entirely unchanged: every parameter is parsed before any assignment. -/
theorem C9_set_position_all_or_nothing (orig : String) (s : GState)
    (params : AxisParams) (p : Fin 4) (hbad : params p = some none) :
    cmd_G92 orig s params = ⟨s, some (errGetFloat orig)⟩ ∧
    cmd_M206 orig s params = ⟨s, some (errGetFloat orig)⟩ := by
  have hc := collectOffsets_fail params axesOrder p (mem_axesOrder p) hbad
  exact ⟨by rw [cmd_G92, hc], by rw [cmd_M206, hc]⟩

/-- Witness for C9 at a concrete input: a `G92`/`M206` with an unparsable
`Y` value leaves the state untouched and raises. -/
theorem C9_set_position_all_or_nothing_witness :
    cmd_G92 "G92 Yzz" ⟨true, true, fun _ => 10, fun _ => 1, fun _ => 4, 5⟩
      (fun i => if i = 1 then some none else none) =
      ⟨⟨true, true, fun _ => 10, fun _ => 1, fun _ => 4, 5⟩,
        some (errGetFloat "G92 Yzz")⟩ :=
  (C9_set_position_all_or_nothing "G92 Yzz"
    ⟨true, true, fun _ => 10, fun _ => 1, fun _ => 4, 5⟩
    (fun i => if i = 1 then some none else none) 1 (by decide)).1

/-! ### `cmd_PID_TUNE` (lines 459-468)

The handler is modelled as the trace of its externally visible actions.
Heaters are `List (Option Unit)` (`None` entries for unconfigured slots,
the bed heater last); `E` and `S` are pre-parsed parameters. -/

/-- Externally visible actions of `cmd_PID_TUNE`. -/
inductive PEvent where
  /-- `self.respond_error(msg)` -/
  | respondError (msg : String)
  /-- the gcode `error` raised by `get_int`/`get_float`, caught and reported
  by `process_commands` -/
  | gcodeError
  /-- any other Python exception (`IndexError`, `AttributeError` on `None`):
  caught by the bare `except`, which forces a toolhead shutdown and reports
  an internal error -/
  | internalError
  /-- `heater.start_auto_tune(temp)` -/
  | startAutoTune (temp : ℚ)
  /-- `self.bg_temp(heater)`: the blocking temperature-report loop -/
  | bgTemp
deriving DecidableEq

/-- Python list indexing with negative-index wraparound; `none` is an
`IndexError`. -/
def pyIndex {α : Type} (l : List α) (i : Int) : Option α :=
  let j : Int := if i < 0 then i + l.length else i
  if j < 0 then none else l.get? j.toNat

/-- `get_int(name, params, default)` on a pre-parsed parameter. -/
def getIntD (param : Option (Option Int)) (dft : Int) : Option Int :=
  match param with
  | none => some dft
  | some none => none
  | some i => i

/-- `cmd_PID_TUNE`: note that the `respond_error` branch does NOT return;
execution continues into `heater = self.heaters[heater_index]` and onwards
exactly as in the source. -/
def cmd_PID_TUNE (heaters : List (Option Unit)) (eparam : Option (Option Int))
    (sparam : Option (Option ℚ)) : List PEvent :=
  match getIntD eparam 0 with
  | none => [PEvent.gcodeError]
  | some heater_index =>
    let bad : Bool :=
      decide (heater_index < -1) ||
        decide ((heaters.length : Int) - 1 ≤ heater_index) ||
        decide (pyIndex heaters heater_index = some none)
    let errs := if bad then [PEvent.respondError "Heater not configured"] else []
    match pyIndex heaters heater_index with
    | none => errs ++ [PEvent.internalError]
    | some h =>
      match sparam with
      | none => errs ++ [PEvent.gcodeError]
      | some none => errs ++ [PEvent.gcodeError]
      | some (some temp) =>
        match h with
        | none => errs ++ [PEvent.internalError]
        | some _ => errs ++ [PEvent.startAutoTune temp, PEvent.bgTemp]

/-- C5 (code bug): with two heaters (one extruder heater plus the bed) the
index `E1` is rejected by the guard (`heater_index >= len(self.heaters)-1`),
`"Heater not configured"` is reported — and then, because the guard has no
`return`, auto-tune is STARTED on the bed heater and the blocking
temperature-report loop IS entered; with `E5` the missing return leads to an
`IndexError` and hence a forced internal-error shutdown.  This contradicts
the claim (and every other guard in the file, which returns after
`respond_error`). -/
theorem C5_pid_tune_missing_return :
    cmd_PID_TUNE [some (), some ()] (some (some 1)) (some (some 200)) =
      [PEvent.respondError "Heater not configured",
       PEvent.startAutoTune 200, PEvent.bgTemp] ∧
    cmd_PID_TUNE [some (), some ()] (some (some 5)) (some (some 200)) =
      [PEvent.respondError "Heater not configured", PEvent.internalError] := by
  constructor <;> rfl

/-! ### The command parser (`process_commands`, lines 89-111)

`re.split('([A-Z_]+|[A-Z*])', line)` with its capturing group returns the
interleaving `[text0, delim1, text1, delim2, ...]` where a delimiter is a
maximal run of `A`-`Z`/`_` or a single `*`.  `reSplitGo true l` is the
segmentation of `l` given that a letter run is currently open (its first
element is the rest of that run); `reSplitGo false l` starts with a text
segment. -/

/-- A character matched by `[A-Z_]`. -/
def isArgsLetter (c : Char) : Bool := (65 ≤ c.toNat && c.toNat ≤ 90) || c == '_'

/-- Single-pass segmentation for `args_r.split`; see the section comment. -/
def reSplitGo : Bool → List Char → List (List Char)
  | true, [] => [[], []]
  | false, [] => [[]]
  | true, c :: cs =>
    if isArgsLetter c then
      match reSplitGo true cs with
      | r :: rest => (c :: r) :: rest
      | [] => [[c]]
    else if c == '*' then
      [] :: [] :: ['*'] :: reSplitGo false cs
    else
      [] :: (match reSplitGo false cs with
             | t :: rest => (c :: t) :: rest
             | [] => [[c]])
  | false, c :: cs =>
    if isArgsLetter c then
      match reSplitGo true cs with
      | r :: rest => [] :: (c :: r) :: rest
      | [] => [[], [c]]
    else if c == '*' then
      [] :: ['*'] :: reSplitGo false cs
    else
      match reSplitGo false cs with
      | t :: rest => (c :: t) :: rest
      | [] => [[c]]

/-- `self.args_r.split(s)`: `[text0, delim1, text1, ...]`. -/
def argsSplit (l : List Char) : List (List Char) := reSplitGo false l

/-- A Python dict as an insertion-ordered association list; lookup returns
the value of the LAST binding of a key (later assignments overwrite). -/
def dictLookup (l : List (String × String)) (k : String) : Option String :=
  (l.reverse.find? (fun kv => kv.1 == k)).map Prod.snd

/-- `{ parts[i]: parts[i+1].strip() for i in range(0, len(parts), 2) }`. -/
def pairsOf : List (List Char) → List (String × String)
  | d :: t :: rest => (String.mk d, pyStrip (String.mk t)) :: pairsOf rest
  | _ => []

/-- `parts = self.args_r.split(line.upper())[1:]` after stripping the line
and cutting the comment (lines 93-98). -/
def lineParts (line : String) : List (List Char) :=
  (argsSplit (((pyStrip line).data.takeWhile (· != ';')).map Char.toUpper)).drop 1

/-- `parts` after dropping a leading line-number pair (lines 102-104). -/
def linePartsN (line : String) : List (List Char) :=
  let parts := lineParts line
  if parts.head? = some ['N'] then parts.drop 2 else parts

/-- The parameter dict built for one line by `process_commands` (lines
92-108), including the `#original` and (when the line has a command)
`#command` pseudo-fields. -/
def parseLine (line : String) : List (String × String) :=
  let base := pairsOf (lineParts line) ++ [("#original", pyStrip line)]
  match linePartsN line with
  | d :: t :: _ => base ++ [("#command", String.mk d ++ pyStrip (String.mk t))]
  | _ => base

/-- The resolved verb key `params['#command']` of a line. -/
def resolvedVerb (line : String) : Option String :=
  dictLookup (parseLine line) "#command"

/-- C6 counterexample: for the line `M105` the resolved verb pseudo-field is
`M105` — the first letter-group `M` concatenated with the ENTIRE stripped
following token `105` — and not `M1`, the letter-group concatenated with
only the FIRST character of the following token as the claim states. -/
theorem C6_counterexample_resolved_verb :
    resolvedVerb "M105" = some "M105" ∧ resolvedVerb "M105" ≠ some "M1" := by
  constructor <;> decide

/-- C6 amended: for every parsed line that still has tokens after dropping a
leading line-number pair, the resolved-verb pseudo-field is the first
letter-group concatenated with the whole of its following token stripped of
surrounding whitespace. -/
theorem C6_amended_resolved_verb (line : String) (d t : List Char)
    (rest : List (List Char)) (h : linePartsN line = d :: t :: rest) :
    resolvedVerb line = some (String.mk d ++ pyStrip (String.mk t)) := by
  rw [resolvedVerb, parseLine, h, dictLookup, List.reverse_append]
  simp [List.find?]

/-- Witness for the amended C6 at a concrete input: `N7 G1 X5` drops the
line-number pair and resolves the verb `G1`. -/
theorem C6_amended_resolved_verb_witness :
    resolvedVerb "N7 G1 X5" = some ("G" ++ pyStrip "1 ") :=
  C6_amended_resolved_verb "N7 G1 X5" ['G'] ['1', ' '] [['X'], ['5']] (by decide)

/-! ### `get_extended_params` (lines 199-211)

The regex `extended_r` match is modelled as given: `eargs` is the captured
`args` group of a line matching the extended-parameter pattern, and
`pseudo` the original parameter map.  The decoder splits `eargs` on
whitespace, splits each token at its first `=` (a token without `=` makes
the `for k, v in eparams` unpacking raise `ValueError`, reported as
`"Malformed command"`, modelled as `none`), uppercases the keys and merges
in the `#`-prefixed pseudo-fields. -/

/-- The tuple unpacking `for k, v in eparams`: succeeds only on pairs. -/
def unpack2 : List String → Option (String × String)
  | [k, v] => some (k, v)
  | _ => none

/-- Effectful map over `Option`, stopping at the first failure (as the
comprehension raises at the first bad token). -/
def mapMOpt {α β : Type} (f : α → Option β) : List α → Option (List β)
  | [] => some []
  | a :: l =>
    match f a with
    | none => none
    | some b => (mapMOpt f l).map (fun bs => b :: bs)

/-- The part of a token before its first `=`. -/
def eqKey (s : String) : String := String.mk (s.data.takeWhile (· != '='))

/-- The part of a token after its first `=`. -/
def eqVal (s : String) : String := String.mk ((s.data.dropWhile (· != '=')).tail)

/-- `k.startswith('#')`. -/
def isHashKey (k : String) : Bool :=
  match k.data with
  | c :: _ => c == '#'
  | [] => false

/-- `{k: params[k] for k in params if k.startswith('#')}`. -/
def hashKeys (params : List (String × String)) : List (String × String) :=
  params.filter (fun kv => isHashKey kv.1)

/-- `get_extended_params`, from the captured `args` group onwards. -/
def get_extended_params (eargs : String) (pseudo : List (String × String)) :
    Option (List (String × String)) :=
  match mapMOpt (fun earg => unpack2 (pySplit1 '=' earg)) (pySplitWs eargs) with
  | none => none
  | some eparams =>
    some (eparams.map (fun kv => (pyUpper kv.1, kv.2)) ++ hashKeys pseudo)

lemma unpack2_pySplit1 (s : String) :
    ('=' ∉ s.data → unpack2 (pySplit1 '=' s) = none) ∧
    ('=' ∈ s.data → unpack2 (pySplit1 '=' s) = some (eqKey s, eqVal s)) := by
  constructor
  · intro h
    have hnil : s.data.dropWhile (· != '=') = [] := by
      rw [List.dropWhile_eq_nil_iff]
      intro x hx
      simp only [bne_iff_ne, ne_eq]
      rintro rfl
      exact h hx
    simp [pySplit1, hnil, unpack2]
  · intro h
    have hne : s.data.dropWhile (· != '=') ≠ [] := by
      rw [Ne, List.dropWhile_eq_nil_iff]
      intro hall
      have := hall '=' h
      simp at this
    cases hct : s.data.dropWhile (· != '=') with
    | nil => exact absurd hct hne
    | cons c tl =>
      simp [pySplit1, hct, unpack2, eqKey, eqVal]

lemma mapMOpt_eq_none {α β : Type} (f : α → Option β) (l : List α) :
    mapMOpt f l = none ↔ ∃ x ∈ l, f x = none := by
  induction l with
  | nil => simp [mapMOpt]
  | cons a l ih =>
    cases ha : f a with
    | none => simp [mapMOpt, ha]
    | some b => simp [mapMOpt, ha, ih]

lemma mapMOpt_eq_map {α β : Type} (f : α → Option β) (g : α → β) (l : List α)
    (h : ∀ x ∈ l, f x = some (g x)) : mapMOpt f l = some (l.map g) := by
  induction l with
  | nil => rfl
  | cons a l ih =>
    simp only [mapMOpt, h a (List.mem_cons_self a l),
      ih (fun x hx => h x (List.mem_cons_of_mem a hx)), Option.map_some]
    rfl

/-- C7: the extended decoder fails with the malformed-command error exactly
when some whitespace-separated argument token contains no `=`; otherwise it
returns the uppercased key/value pairs merged with all `#`-prefixed
pseudo-fields of the original parameter map. -/
theorem C7_extended_params_malformed (eargs : String)
    (pseudo : List (String × String)) :
    (get_extended_params eargs pseudo = none ↔
      ∃ tok ∈ pySplitWs eargs, '=' ∉ tok.data) ∧
    ((∀ tok ∈ pySplitWs eargs, '=' ∈ tok.data) →
      get_extended_params eargs pseudo =
        some ((pySplitWs eargs).map (fun tok => (pyUpper (eqKey tok), eqVal tok)) ++
          hashKeys pseudo)) := by
  constructor
  · constructor
    · intro h
      cases hm : mapMOpt (fun earg => unpack2 (pySplit1 '=' earg)) (pySplitWs eargs) with
      | some eparams => rw [get_extended_params, hm] at h; cases h
      | none =>
        obtain ⟨tok, htok, hfn⟩ := (mapMOpt_eq_none _ _).mp hm
        refine ⟨tok, htok, fun hin => ?_⟩
        rw [(unpack2_pySplit1 tok).2 hin] at hfn
        cases hfn
    · rintro ⟨tok, htok, hne⟩
      have hm : mapMOpt (fun earg => unpack2 (pySplit1 '=' earg)) (pySplitWs eargs)
          = none :=
        (mapMOpt_eq_none _ _).mpr ⟨tok, htok, (unpack2_pySplit1 tok).1 hne⟩
      rw [get_extended_params, hm]
  · intro hall
    have hm := mapMOpt_eq_map (fun earg => unpack2 (pySplit1 '=' earg))
      (fun tok => (eqKey tok, eqVal tok)) (pySplitWs eargs)
      (fun tok htok => (unpack2_pySplit1 tok).2 (hall tok htok))
    rw [get_extended_params, hm]
    simp [List.map_map, Function.comp]

/-- Witness for C7 at a concrete input: two well-formed tokens are decoded
with uppercased keys, the `#original` pseudo-field is merged in and the
non-`#` keys of the original map are dropped. -/
theorem C7_extended_params_malformed_witness :
    get_extended_params "servo=myservo angle=90"
      [("#original", "set_servo servo=myservo angle=90"), ("ANGLE", "x")] =
      some [("SERVO", "myservo"), ("ANGLE", "90"),
        ("#original", "set_servo servo=myservo angle=90")] := by
  have h := (C7_extended_params_malformed "servo=myservo angle=90"
    [("#original", "set_servo servo=myservo angle=90"), ("ANGLE", "x")]).2 (by decide)
  rw [h]
  decide

/-! ### Response channel (lines 159-172)

`respond` writes one line-terminated payload; the two response functions
are modelled as the payloads they pass to `respond`, in order. -/

/-- List-level `sep.join(parts)` for a one-character separator. -/
def joinSepL (sep : Char) : List (List Char) → List Char
  | [] => []
  | [p] => p
  | p :: q :: ps => p ++ sep :: joinSepL sep (q :: ps)

/-- `respond_info(msg)`: the payload of its single `respond` call,
`"// " + "\n// ".join([l.strip() for l in msg.strip().split('\n')])`. -/
def respond_info_msg (msg : String) : String :=
  "// " ++ pyJoin "\n// " ((pySplitChar '\n' (pyStrip msg)).map pyStrip)

/-- `respond_error(msg)`: the payloads of its `respond` calls in order —
an informational block holding all lines but the last (only when there is
more than one line), then the `!!`-prefixed stripped final line. -/
def respond_error (msg : String) : List String :=
  let lines := pySplitChar '\n' (pyStrip msg)
  (if 1 < lines.length then [respond_info_msg (pyJoin "\n" lines.dropLast)] else [])
    ++ ["!! " ++ pyStrip (lines.getLast?.getD "")]

/-! Auxiliary facts about `strip`, `split` and `join`. -/

lemma dropWhile_length_le (p : Char → Bool) (l : List Char) :
    (l.dropWhile p).length ≤ l.length := by
  induction l with
  | nil => simp
  | cons c cs ih =>
    by_cases h : p c
    · rw [List.dropWhile_cons_of_pos h]
      exact le_trans ih (Nat.le_succ _)
    · rw [List.dropWhile_cons_of_neg h]

lemma dropWhile_head_false (p : Char → Bool) (l : List Char)
    (h : ∀ c, l.head? = some c → p c = false) : l.dropWhile p = l := by
  cases l with
  | nil => rfl
  | cons c cs =>
    rw [List.dropWhile_cons_of_neg]
    simp [h c rfl]

lemma dropWhile_eq_self_of_length (p : Char → Bool) (l : List Char)
    (h : (l.dropWhile p).length = l.length) : l.dropWhile p = l := by
  cases l with
  | nil => rfl
  | cons a cs =>
    by_cases hp : p a
    · exfalso
      rw [List.dropWhile_cons_of_pos hp, List.length_cons] at h
      have := dropWhile_length_le p cs
      omega
    · rw [List.dropWhile_cons_of_neg hp]

/-- A string equal to its own `strip()` starts and ends with non-space
characters. -/
lemma strip_fixed_heads {l : List Char} (h : pyStripList l = l) :
    (∀ c, l.head? = some c → isPySpace c = false) ∧
    (∀ c, l.getLast? = some c → isPySpace c = false) := by
  have hlen := congrArg List.length h
  rw [pyStripList, List.length_reverse] at hlen
  have h1le := dropWhile_length_le isPySpace ((l.dropWhile isPySpace).reverse)
  rw [List.length_reverse] at h1le
  have h2le := dropWhile_length_le isPySpace l
  have hinner : (l.dropWhile isPySpace).length = l.length := by omega
  have e1 : l.dropWhile isPySpace = l := dropWhile_eq_self_of_length _ _ hinner
  rw [e1] at hlen
  have e2 : l.reverse.dropWhile isPySpace = l.reverse := by
    apply dropWhile_eq_self_of_length
    simpa using hlen
  constructor
  · intro c hc
    cases l with
    | nil => cases hc
    | cons a cs =>
      rw [List.head?_cons] at hc
      injection hc with hac
      subst hac
      by_contra hp
      rw [Bool.not_eq_false] at hp
      rw [List.dropWhile_cons_of_pos hp, List.length_cons] at hinner
      have := dropWhile_length_le isPySpace cs
      omega
  · intro c hc
    rw [← List.head?_reverse] at hc
    cases hrev : l.reverse with
    | nil => rw [hrev] at hc; cases hc
    | cons a cs =>
      rw [hrev, List.head?_cons] at hc
      injection hc with hac
      subst hac
      by_contra hp
      rw [Bool.not_eq_false] at hp
      have hlen2 := congrArg List.length e2
      rw [hrev, List.dropWhile_cons_of_pos hp, List.length_cons] at hlen2
      have := dropWhile_length_le isPySpace cs
      omega

lemma string_mk_data (s : String) : String.mk s.data = s := by
  cases s
  rfl

/-- A string whose head and last characters are non-space is fixed by
`strip()`. -/
lemma pyStripList_eq_self {l : List Char}
    (h1 : ∀ c, l.head? = some c → isPySpace c = false)
    (h2 : ∀ c, l.getLast? = some c → isPySpace c = false) :
    pyStripList l = l := by
  have e1 : l.dropWhile isPySpace = l := dropWhile_head_false _ _ h1
  have e2 : l.reverse.dropWhile isPySpace = l.reverse := by
    apply dropWhile_head_false
    intro c hc
    rw [List.head?_reverse] at hc
    exact h2 c hc
  rw [pyStripList, e1, e2, List.reverse_reverse]

lemma pyJoin_nl_data (ls : List String) :
    (pyJoin "\n" ls).data = joinSepL '\n' (ls.map String.data) := by
  induction ls with
  | nil => rfl
  | cons a tl ih =>
    cases tl with
    | nil => rfl
    | cons b tl2 =>
      show (a ++ "\n" ++ pyJoin "\n" (b :: tl2)).data = _
      rw [String.data_append, String.data_append, ih]
      show (a.data ++ ['\n']) ++ _ = a.data ++ '\n' :: _
      rw [List.append_assoc]
      rfl

lemma splitAux_nosep (sep : Char) (t : List Char) (hn : sep ∉ t) :
    ∀ (rest acc : List Char),
      splitOnCharAux sep (t ++ rest) acc =
        splitOnCharAux sep rest (t.reverse ++ acc) := by
  induction t with
  | nil => intro rest acc; rfl
  | cons c ts ih =>
    intro rest acc
    have hc : (c == sep) = false := by
      simp only [beq_eq_false_iff_ne, ne_eq]
      rintro rfl
      exact hn (List.mem_cons_self c ts)
    rw [List.cons_append, splitOnCharAux, hc]
    simp only [Bool.false_eq_true, if_false]
    rw [ih (fun h => hn (List.mem_cons_of_mem c h)) rest (c :: acc)]
    rw [List.reverse_cons, List.append_assoc]
    rfl

lemma splitAux_join (sep : Char) (ls : List (List Char)) (hne : ls ≠ [])
    (hn : ∀ l ∈ ls, sep ∉ l) :
    splitOnCharAux sep (joinSepL sep ls) [] = ls := by
  induction ls with
  | nil => exact absurd rfl hne
  | cons a tl ih =>
    cases tl with
    | nil =>
      show splitOnCharAux sep (joinSepL sep [a]) [] = [a]
      have := splitAux_nosep sep a (hn a (List.mem_cons_self a [])) [] []
      rw [List.append_nil] at this
      rw [joinSepL, this, splitOnCharAux, List.append_nil, List.reverse_reverse]
    | cons b tl2 =>
      rw [joinSepL,
        splitAux_nosep sep a (hn a (List.mem_cons_self a (b :: tl2)))
          (sep :: joinSepL sep (b :: tl2)) [],
        splitOnCharAux]
      simp only [beq_self_eq_true, if_true, List.append_nil, List.reverse_reverse]
      rw [ih (by simp) (fun l hl => hn l (List.mem_cons_of_mem a hl))]

lemma pySplitChar_pyJoin_nl (ls : List String) (hne : ls ≠ [])
    (hn : ∀ l ∈ ls, '\n' ∉ l.data) :
    pySplitChar '\n' (pyJoin "\n" ls) = ls := by
  rw [pySplitChar, pyJoin_nl_data,
    splitAux_join '\n' (ls.map String.data) (by simpa using hne)
      (by intro l hl
          obtain ⟨s, hs, rfl⟩ := List.mem_map.mp hl
          exact hn s hs)]
  rw [List.map_map, show (String.mk ∘ String.data) = id from funext string_mk_data,
    List.map_id]

lemma info_block_eq_join (xs : List String) (hne : xs ≠ []) :
    "// " ++ pyJoin "\n// " xs = pyJoin "\n" (xs.map (fun l => "// " ++ l)) := by
  induction xs with
  | nil => exact absurd rfl hne
  | cons a tl ih =>
    cases tl with
    | nil => rfl
    | cons b tl2 =>
      have ih2 := ih (by simp)
      show "// " ++ (a ++ "\n// " ++ pyJoin "\n// " (b :: tl2)) =
        ("// " ++ a) ++ "\n" ++ pyJoin "\n" ((b :: tl2).map (fun l => "// " ++ l))
      rw [← ih2]
      have hsep : ("\n// " : String) = "\n" ++ "// " := by decide
      rw [hsep]
      apply String.ext
      simp [List.append_assoc]

lemma str_ne_empty_data {s : String} (h : s ≠ "") : s.data ≠ [] := by
  intro hd
  apply h
  rw [← string_mk_data s, hd]

lemma head?_pyJoin_nl (l0 : String) (rest : List String) (h0 : l0.data ≠ []) :
    (pyJoin "\n" (l0 :: rest)).data.head? = l0.data.head? := by
  cases rest with
  | nil => rfl
  | cons b t =>
    show ((l0 ++ "\n") ++ pyJoin "\n" (b :: t)).data.head? = _
    cases hd : l0.data with
    | nil => exact absurd hd h0
    | cons c cs => simp [hd]

lemma getLast?_pyJoin_nl (ls : List String) (hne : ls ≠ [])
    (hlast : ∀ x, ls.getLast? = some x → x.data ≠ []) :
    (pyJoin "\n" ls).data.getLast? = (ls.getLast?.getD "").data.getLast? := by
  induction ls with
  | nil => exact absurd rfl hne
  | cons a tl ih =>
    cases tl with
    | nil => rfl
    | cons b t =>
      have ihh := ih (by simp)
        (fun x hx => hlast x (by rw [List.getLast?_cons_cons]; exact hx))
      show ((a ++ "\n") ++ pyJoin "\n" (b :: t)).data.getLast? = _
      rw [String.data_append, List.getLast?_append, ihh, List.getLast?_cons_cons]
      cases hlx : (b :: t).getLast? with
      | none => rw [List.getLast?_eq_none_iff] at hlx; cases hlx
      | some x =>
        have hxd : x.data ≠ [] :=
          hlast x (by rw [List.getLast?_cons_cons]; exact hlx)
        cases hxl : x.data.getLast? with
        | none => rw [List.getLast?_eq_none_iff] at hxl; exact absurd hxl hxd
        | some c => simp [hlx, hxl]

/-- A newline-join of trimmed nonempty lines is fixed by `strip()`. -/
lemma pyStrip_pyJoin_nl (ls : List String) (hne : ls ≠ [])
    (hok : ∀ l ∈ ls, pyStrip l = l ∧ l ≠ "") :
    pyStrip (pyJoin "\n" ls) = pyJoin "\n" ls := by
  have hmk : ∀ l ∈ ls, pyStripList l.data = l.data := by
    intro l hl
    have h2 := congrArg String.data (hok l hl).1
    simpa [pyStrip] using h2
  cases ls with
  | nil => exact absurd rfl hne
  | cons l0 rest =>
    have hmem0 := List.mem_cons_self l0 rest
    have h0d : l0.data ≠ [] := str_ne_empty_data (hok l0 hmem0).2
    have hheads0 := strip_fixed_heads (hmk l0 hmem0)
    rw [pyStrip, pyStripList_eq_self, string_mk_data]
    · intro c hc
      rw [head?_pyJoin_nl l0 rest h0d] at hc
      exact hheads0.1 c hc
    · intro c hc
      rw [getLast?_pyJoin_nl (l0 :: rest) hne ?hlastne] at hc
      case hlastne =>
        intro x hx
        exact str_ne_empty_data
          (hok x (List.mem_of_getLast?_eq_some hx)).2
      cases hgl : (l0 :: rest).getLast? with
      | none => rw [List.getLast?_eq_none_iff] at hgl; cases hgl
      | some x =>
        rw [hgl] at hc
        have hx := List.mem_of_getLast?_eq_some hgl
        exact (strip_fixed_heads (hmk x hx)).2 c (by simpa using hc)

/-- C8: for an error message made of `n ≥ 2` trimmed, nonempty,
newline-free lines, `respond_error` emits exactly two responses: one
informational block containing the first `n-1` lines each prefixed `"// "`,
and then only the final line prefixed `"!! "`.  Splitting the block on
newlines recovers exactly the prefixed first `n-1` lines. -/
theorem C8_respond_error_multiline (ls : List String) (hlen : 2 ≤ ls.length)
    (hok : ∀ l ∈ ls, pyStrip l = l ∧ l ≠ "" ∧ '\n' ∉ l.data) :
    respond_error (pyJoin "\n" ls) =
      [pyJoin "\n" (ls.dropLast.map (fun l => "// " ++ l)),
       "!! " ++ ls.getLast?.getD ""] ∧
    pySplitChar '\n' (pyJoin "\n" (ls.dropLast.map (fun l => "// " ++ l))) =
      ls.dropLast.map (fun l => "// " ++ l) := by
  have hne : ls ≠ [] := by
    intro h
    rw [h] at hlen
    simp at hlen
  have hdlne : ls.dropLast ≠ [] := by
    intro h
    have h2 := congrArg List.length h
    rw [List.length_dropLast] at h2
    simp at h2
    omega
  have hsub : ∀ l ∈ ls.dropLast, l ∈ ls := fun l hl => List.dropLast_subset ls hl
  have hstrip1 : pyStrip (pyJoin "\n" ls) = pyJoin "\n" ls :=
    pyStrip_pyJoin_nl ls hne (fun l hl => ⟨(hok l hl).1, (hok l hl).2.1⟩)
  have hsplit1 : pySplitChar '\n' (pyJoin "\n" ls) = ls :=
    pySplitChar_pyJoin_nl ls hne (fun l hl => (hok l hl).2.2)
  have hstrip2 : pyStrip (pyJoin "\n" ls.dropLast) = pyJoin "\n" ls.dropLast :=
    pyStrip_pyJoin_nl ls.dropLast hdlne
      (fun l hl => ⟨(hok l (hsub l hl)).1, (hok l (hsub l hl)).2.1⟩)
  have hsplit2 : pySplitChar '\n' (pyJoin "\n" ls.dropLast) = ls.dropLast :=
    pySplitChar_pyJoin_nl ls.dropLast hdlne (fun l hl => (hok l (hsub l hl)).2.2)
  constructor
  · rw [respond_error]
    show (if 1 < (pySplitChar '\n' (pyStrip (pyJoin "\n" ls))).length then
        [respond_info_msg
          (pyJoin "\n" (pySplitChar '\n' (pyStrip (pyJoin "\n" ls))).dropLast)]
      else []) ++
      ["!! " ++ pyStrip ((pySplitChar '\n' (pyStrip (pyJoin "\n" ls))).getLast?.getD "")]
      = _
    rw [hstrip1, hsplit1, if_pos (by omega)]
    have hmapstrip : ls.dropLast.map pyStrip = List.map id ls.dropLast :=
      List.map_congr_left (fun l hl => (hok l (hsub l hl)).1)
    have hglast : pyStrip (ls.getLast?.getD "") = ls.getLast?.getD "" := by
      cases hgl : ls.getLast? with
      | none => rw [List.getLast?_eq_none_iff] at hgl; exact absurd hgl hne
      | some x =>
        have hx := hok x (List.mem_of_getLast?_eq_some hgl)
        simpa using hx.1
    rw [respond_info_msg, hstrip2, hsplit2, hmapstrip, List.map_id, hglast,
      info_block_eq_join ls.dropLast hdlne]
    rfl
  · apply pySplitChar_pyJoin_nl
    · intro h
      exact hdlne (List.map_eq_nil_iff.mp h)
    · intro l hl
      obtain ⟨x, hx, rfl⟩ := List.mem_map.mp hl
      intro hmem
      rw [String.data_append] at hmem
      rcases List.mem_append.mp hmem with h1 | h1
      · exact absurd h1 (by decide)
      · exact (hok x (hsub x hx)).2.2 h1

/-- Witness for C8 at the concrete input of the claim: the two-line message
`"a\nb"` produces one info block `"// a"` and a separate error line
`"!! b"`. -/
theorem C8_respond_error_multiline_witness :
    respond_error "a\nb" = ["// a", "!! b"] := by
  have h := (C8_respond_error_multiline ["a", "b"] (by decide) (by decide)).1
  have e1 : pyJoin "\n" ["a", "b"] = "a\nb" := by decide
  have e2 : pyJoin "\n" ((["a", "b"] : List String).dropLast.map
      (fun l => "// " ++ l)) = "// a" := by decide
  have e3 : "!! " ++ ((["a", "b"] : List String).getLast?.getD "") = "!! b" := by decide
  rw [e1, e2, e3] at h
  exact h

/-! ### Channel framer (`process_data`, lines 125-149)

The reactor callback is modelled as a function of the framer state and the
bytes read, returning the new state and the trace of its externally visible
actions in program order.  The cooperative wait loop
`while self.is_processing_data: pause(...)` blocks until the in-flight
batch completes; it appears in the trace as the single event `guardWait`,
after which the callback proceeds with the batch (the loop's exit
condition).  `cmd_M112({})` is `self.toolhead.force_shutdown()`, the event
`forceShutdown`. -/

/-- Externally visible actions of `process_data`. -/
inductive FEvent where
  | unregisterFd
  | forceShutdown
  | guardWait
  | registerFd
  | runCommands (lines : List String)
  | motorHeaterOff
  | waitMoves
  | requestExit
deriving DecidableEq

/-- Framer state: the reentrancy guard and the carried-over incomplete
line (`self.partial_input` in the source). -/
structure Framer where
  is_processing_data : Bool
  carry_input : String

/-- `lines = data.split('\n'); lines[0] = self.partial_input + lines[0];
self.partial_input = lines.pop()`: the complete lines of this read. -/
def framedLines (carry data : String) : List String :=
  (match pySplitChar '\n' data with
   | [] => []
   | h :: t => (carry ++ h) :: t).dropLast

/-- The trailing incomplete fragment kept for the next read. -/
def framedCarry (carry data : String) : String :=
  (match pySplitChar '\n' data with
   | [] => []
   | h :: t => (carry ++ h) :: t).getLast?.getD ""

/-- `process_data(eventtime)` for one read returning `data`. -/
def process_data (is_fileinput : Bool) (f : Framer) (data : String) :
    Framer × List FEvent :=
  let lines := framedLines f.carry_input data
  let carry := framedCarry f.carry_input data
  let tail := FEvent.runCommands lines ::
    (if data == "" && is_fileinput then
       [FEvent.motorHeaterOff, FEvent.waitMoves, FEvent.requestExit]
     else [])
  if f.is_processing_data then
    if !is_fileinput && lines.isEmpty then
      ({ is_processing_data := true, carry_input := carry }, [])
    else
      let m112 : Bool := !is_fileinput &&
        (match lines.head? with
         | some l0 => pyUpper (pyStrip l0) == "M112"
         | none => false)
      ({ is_processing_data := false, carry_input := carry },
        FEvent.unregisterFd ::
          ((if m112 then [FEvent.forceShutdown] else []) ++
            (FEvent.guardWait :: FEvent.registerFd :: tail)))
  else
    ({ is_processing_data := false, carry_input := carry }, tail)

/-- C1: in interactive (non-replay) mode, when a read completes at least
one line while a previous batch is still being processed and the first
line, trimmed and uppercased, is exactly `M112`, the emergency-stop handler
(`toolhead.force_shutdown()`) runs immediately after the fd is
unregistered and BEFORE the cooperative wait on the reentrancy guard — the
batch itself only runs after the wait. -/
theorem C1_m112_preempts_guard (f : Framer) (data : String) (l0 : String)
    (rest : List String) (hbusy : f.is_processing_data = true)
    (hlines : framedLines f.carry_input data = l0 :: rest)
    (hm112 : pyUpper (pyStrip l0) = "M112") :
    (process_data false f data).2 =
      [FEvent.unregisterFd, FEvent.forceShutdown, FEvent.guardWait,
       FEvent.registerFd, FEvent.runCommands (l0 :: rest)] := by
  simp [process_data, hbusy, hlines, hm112]

/-- Witness for C1 at a concrete input: a busy framer reading `"M112\n"`. -/
theorem C1_m112_preempts_guard_witness :
    (process_data false ⟨true, ""⟩ "M112\n").2 =
      [FEvent.unregisterFd, FEvent.forceShutdown, FEvent.guardWait,
       FEvent.registerFd, FEvent.runCommands ["M112"]] :=
  C1_m112_preempts_guard ⟨true, ""⟩ "M112\n" "M112" [] rfl (by decide) (by decide)

/-! ### The acknowledgement frame of `process_commands` (lines 89-124)

Per-line processing (tokenising, dispatch, the handler body including any
nested `process_commands` call such as the `cmd_Tn` activation/deactivation
macros, the two `except` arms and the trailing `self.ack()`) is abstracted
as a `step` function on the full interpreter state; the `stop` result
models the `break` in the file-input internal-error arm.  `need_ack` is
part of the threaded state, so `step` may read and clear it arbitrarily —
exactly what `self.ack()` and nested invocations do. -/

/-- The interpreter state split into the pending-acknowledgement flag and
everything else. -/
structure AckSt (σ : Type) where
  need_ack : Bool
  inner : σ

/-- Outcome of processing one line: continue the loop or `break`. -/
inductive StepOut (σ : Type) where
  | next (s : AckSt σ)
  | stop (s : AckSt σ)

/-- The `for line in commands` loop: each iteration first sets
`self.need_ack = need_ack`, then runs the line. -/
def processCommandsGo {σ : Type} (need_ack : Bool)
    (step : String → AckSt σ → StepOut σ) :
    List String → AckSt σ → AckSt σ
  | [], st => st
  | line :: rest, st =>
    match step line { st with need_ack := need_ack } with
    | StepOut.next st2 => processCommandsGo need_ack step rest st2
    | StepOut.stop st2 => st2

/-- `process_commands(commands, need_ack)`: saves `self.need_ack`, runs the
loop, restores the saved value (lines 90 and 124). -/
def process_commands {σ : Type} (step : String → AckSt σ → StepOut σ)
    (commands : List String) (need_ack : Bool) (s : AckSt σ) : AckSt σ :=
  let prev := s.need_ack
  let sEnd := processCommandsGo need_ack step commands s
  { sEnd with need_ack := prev }

/-- C10: for every invocation of `process_commands` — whatever the commands
are and whatever the per-line processing does to the flag, including nested
invocations with acknowledgements suppressed — the pending-acknowledgement
flag after it returns equals its value on entry. -/
theorem C10_need_ack_restored {σ : Type} (step : String → AckSt σ → StepOut σ)
    (commands : List String) (need_ack : Bool) (s : AckSt σ) :
    (process_commands step commands need_ack s).need_ack = s.need_ack := rfl

end Klippy
